import Mathlib

/-!
# GPUGalaxy: the `star` body of the N-body simulation

A shallow embedding of `src/GPUGalaxy/star.hh`.

Scalars.  The functions of `star` are embedded over a scalar type `K` that has
the operations the code applies to a `double`: `+`, `-`, `*`, `/`, the integer
literals `0`, `2`, `4`, the decimal literals `3.14` and `0.33`, the conversion
of a colour channel to `double` and back.  Two readings of `K` are used.

* Exact arithmetic: `K` is a field (`ℚ` for evaluation, `ℝ` for the statements
  about `pow`, `π` and limits).  What is proved there holds of the formulas of
  the code with rounding set aside.
* Double arithmetic: `K` is `double`, the finite binary64 numbers with every
  operation rounded to nearest, ties to even.  Overflow to infinity, NaN, signed
  zeros and division by zero are outside this reading.

State.  The member functions of `star` that mutate `*this` are embedded as
functions from the old object to the new one.
-/

namespace GPUGalaxy

/-! ## Leaf value types -/

/-- Modelled from the spec: the header `vec2d.hh` is not among the sources.  The
2D vector is a pair of scalar components with component construction from two
scalars, `+`, `-`, multiplication by a scalar on the right and division by a
scalar on the right. -/
structure vec2d (K : Type) where
  x : K
  y : K
deriving DecidableEq, Repr

/-- Modelled from the spec: the declaration of `rgb32` is not among the sources.
The colour has three 8-bit channels. -/
structure rgb32 where
  red : Fin 256
  green : Fin 256
  blue : Fin 256
deriving DecidableEq, Repr

/-- Componentwise sum, `operator+` (and `operator+=`) of `vec2d`. -/
instance {K : Type} [Add K] : Add (vec2d K) where
  add a b := ⟨a.x + b.x, a.y + b.y⟩

/-- Componentwise difference, `operator-` of `vec2d`. -/
instance {K : Type} [Sub K] : Sub (vec2d K) where
  sub a b := ⟨a.x - b.x, a.y - b.y⟩

/-- Product with a scalar on the right, `operator*(double)` of `vec2d`. -/
instance {K : Type} [Mul K] : HMul (vec2d K) K (vec2d K) where
  hMul a k := ⟨a.x * k, a.y * k⟩

/-- Quotient by a scalar on the right, `operator/(double)` of `vec2d`. -/
instance {K : Type} [Div K] : HDiv (vec2d K) K (vec2d K) where
  hDiv a k := ⟨a.x / k, a.y / k⟩

section ColourOps

/-- Modelled from the spec: the conversion of a numeric value to an 8-bit
channel done by the constructor of `rgb32`, which is not among the sources.  The
value is rounded to the nearest integer (halves upwards) and clamped to the
channel range `0..255`. -/
def toChannel {K : Type} [LinearOrderedField K] [FloorRing K] (v : K) : Fin 256 :=
  ⟨min 255 (Int.toNat ⌊v + 1 / 2⌋), Nat.lt_succ_of_le (Nat.min_le_left _ _)⟩

/-- The scalar types whose values the constructor of `rgb32` converts to a
channel. -/
class ToChannel (K : Type) where
  /-- The channel a value is converted to. -/
  channel : K → Fin 256

/-- In exact arithmetic the conversion is `toChannel`. -/
instance {K : Type} [LinearOrderedField K] [FloorRing K] : ToChannel K where
  channel := toChannel

/-- Modelled from the spec: the three-argument constructor `rgb32(r, g, b)`
called with numeric values. -/
def rgb32.ofValues {K : Type} [ToChannel K] (r g b : K) : rgb32 :=
  ⟨ToChannel.channel r, ToChannel.channel g, ToChannel.channel b⟩

end ColourOps

/-! ## Double arithmetic -/

/-- The number of halvings that bring `n` below `2`, at most `fuel` of them:
with `fuel = n` this is `⌊log₂ n⌋` for `n ≥ 1`. -/
def halvings : Nat → Nat → Nat
  | 0, _ => 0
  | fuel + 1, n => if n < 2 then 0 else halvings fuel (n / 2) + 1

/-- The binary exponent `⌊log₂ |q|⌋` of a nonzero rational. -/
def binaryExponent (q : ℚ) : ℤ :=
  if (2 : ℚ) ^ ((halvings q.num.natAbs q.num.natAbs : ℤ) - (halvings q.den q.den : ℤ)) ≤ |q| then
    (halvings q.num.natAbs q.num.natAbs : ℤ) - (halvings q.den q.den : ℤ)
  else
    (halvings q.num.natAbs q.num.natAbs : ℤ) - (halvings q.den q.den : ℤ) - 1

/-- The nearest integer, ties to the even one. -/
def roundEven (t : ℚ) : ℤ :=
  if t - ⌊t⌋ < 1 / 2 then ⌊t⌋
  else if 1 / 2 < t - ⌊t⌋ then ⌊t⌋ + 1
  else if ⌊t⌋ % 2 = 0 then ⌊t⌋ else ⌊t⌋ + 1

/-- The exponent of the unit in the last place of the binary64 numbers near `q`:
53 significant bits, and `2 ^ (-1074)` for the subnormal numbers. -/
def ulpExponent (q : ℚ) : ℤ :=
  max (binaryExponent q - 52) (-1074)

/-- The binary64 number nearest to `q`, ties to even. -/
def round64 (q : ℚ) : ℚ :=
  roundEven (q / 2 ^ ulpExponent q) * 2 ^ ulpExponent q

/-- The C++ type `double` in double arithmetic: a finite binary64 number, given
by its value. -/
structure double where
  val : ℚ
deriving DecidableEq, Repr

/-- The sum of two doubles, rounded. -/
instance : Add double where
  add a b := ⟨round64 (a.val + b.val)⟩

/-- The difference of two doubles, rounded. -/
instance : Sub double where
  sub a b := ⟨round64 (a.val - b.val)⟩

/-- The product of two doubles, rounded. -/
instance : Mul double where
  mul a b := ⟨round64 (a.val * b.val)⟩

/-- The quotient of two doubles, rounded. -/
instance : Div double where
  div a b := ⟨round64 (a.val / b.val)⟩

/-- An integer literal of type `double`. -/
instance (n : Nat) : OfNat double n where
  ofNat := ⟨round64 n⟩

/-- A decimal literal of type `double`. -/
instance : OfScientific double where
  ofScientific m s e := ⟨round64 (OfScientific.ofScientific m s e)⟩

/-- The conversion of an unsigned integer to `double`. -/
instance : NatCast double where
  natCast n := ⟨round64 n⟩

/-- The negative of a double, which is exact. -/
instance : Neg double where
  neg a := ⟨-a.val⟩

/-- The order of doubles is the order of their values. -/
instance : LT double where
  lt a b := a.val < b.val

/-- The conversion of a double to a channel is `toChannel` on its value. -/
instance : ToChannel double where
  channel v := toChannel v.val

/-- The value of `x` is a binary64 number: rounding leaves it unchanged. -/
def double.binary64 (x : double) : Prop :=
  round64 x.val = x.val

/-- Both components of `v` are binary64 numbers. -/
def vec2d.binary64 (v : vec2d double) : Prop :=
  v.x.binary64 ∧ v.y.binary64

/-! ## The body -/

/-- The data members of `class star`. -/
structure star (K : Type) where
  /-- The mass of this star, `_mass`. -/
  mass : K
  /-- The position of this star, `_pos`. -/
  pos : vec2d K
  /-- The previous position of this star, `_prev_pos`. -/
  prev_pos : vec2d K
  /-- The velocity of this star, `_vel`. -/
  vel : vec2d K
  /-- The accumulated force on this star, `_force`. -/
  force : vec2d K
  /-- The color of this star, `_color`. -/
  color : rgb32
  /-- Has this particle been updated at least once?  The `int _initialized`. -/
  initialized : Int
deriving DecidableEq, Repr

/-- The constructor `star(mass, pos, vel, color)`.  It does not initialise
`_prev_pos`; the indeterminate content of that member is the argument `junk`. -/
def star.new {K : Type} [OfNat K 0] (mass : K) (pos vel : vec2d K) (color : rgb32)
    (junk : vec2d K) : star K :=
  { mass := mass
    pos := pos
    prev_pos := junk
    vel := vel
    force := ⟨0, 0⟩
    color := color
    initialized := 0 }

/-- The member `star::update(dt)`: one integration step. -/
def star.update {K : Type} [Add K] [Sub K] [Mul K] [Div K] [OfNat K 0] [OfNat K 2]
    (s : star K) (dt : K) : star K :=
  let accel : vec2d K := s.force / s.mass
  -- Verlet integration
  let s1 : star K :=
    if s.initialized = 0 then
      -- First step: no previous position
      let next_pos : vec2d K := s.pos + s.vel * dt + accel / (2 : K) * dt * dt
      { s with prev_pos := s.pos, pos := next_pos, initialized := 1 }
    else
      -- Later steps
      let next_pos : vec2d K := s.pos * (2 : K) - s.prev_pos + accel * dt * dt
      { s with prev_pos := s.pos, pos := next_pos }
  -- Track velocity, then zero out the force
  { s1 with vel := s1.vel + accel * dt, force := ⟨0, 0⟩ }

/-- The member `star::addForce(force)`. -/
def star.addForce {K : Type} [Add K] (s : star K) (force : vec2d K) : star K :=
  { s with force := s.force + force }

/-- The local `accel` of `star::update`: the accumulated force divided by the
mass. -/
def star.accel {K : Type} [Div K] (s : star K) : vec2d K :=
  s.force / s.mass

/-- The body after `n` rounds of `addForce(force); update(dt)`, the two calls
the simulation loop makes on a body in each round. -/
def star.rounds {K : Type} [Add K] [Sub K] [Mul K] [Div K] [OfNat K 0] [OfNat K 2]
    (s : star K) (force : vec2d K) (dt : K) : Nat → star K
  | 0 => s
  | n + 1 => ((star.rounds s force dt n).addForce force).update dt

/-- The member `star::radius()`.  The library function `pow` of `<cmath>` is
the argument `pow`. -/
def star.radius {K : Type} [Div K] [OfScientific K] [OfNat K 4] (pow : K → K → K)
    (s : star K) : K :=
  pow (s.mass / (3.14 : K)) (0.33 : K) / 4

/-- The member `star::merge(other)`.  The result is built by the constructor, so
its `_prev_pos` is not initialised: `junk` is its indeterminate content. -/
def star.merge {K : Type} [Add K] [Mul K] [Div K] [OfNat K 0] [NatCast K] [ToChannel K]
    (s other : star K) (junk : vec2d K) : star K :=
  let mass : K := s.mass + other.mass
  let pos : vec2d K := (s.pos * s.mass + other.pos * other.mass) / (s.mass + other.mass)
  let vel : vec2d K := (s.vel * s.mass + other.vel * other.mass) / (s.mass + other.mass)
  let color : rgb32 := rgb32.ofValues
    ((((s.color.red : Nat) : K) * s.mass + ((other.color.red : Nat) : K) * other.mass)
      / (s.mass + other.mass))
    ((((s.color.green : Nat) : K) * s.mass + ((other.color.green : Nat) : K) * other.mass)
      / (s.mass + other.mass))
    ((((s.color.blue : Nat) : K) * s.mass + ((other.color.blue : Nat) : K) * other.mass)
      / (s.mass + other.mass))
  star.new mass pos vel color junk

/-! ## Concrete bodies used to evaluate the operations -/

/-- A body that has never been stepped: mass 2 at the origin, velocity `(1, 0)`,
with the force `(1, 2)` accumulated. -/
def freshBody : star ℚ :=
  (star.new 2 ⟨0, 0⟩ ⟨1, 0⟩ ⟨0, 0, 0⟩ ⟨7, 7⟩).addForce ⟨1, 2⟩

/-- A body that has been stepped once, with the force `(1, 2)` accumulated for
its next step. -/
def steppedBody : star ℚ :=
  (freshBody.update (1 / 2)).addForce ⟨1, 2⟩

/-- A body that has been stepped once and has no force accumulated. -/
def coastingBody : star ℚ :=
  freshBody.update (1 / 2)

/-- A body of the given mass, at rest at the origin. -/
def bodyOfMass {K : Type} [OfNat K 0] (m : K) : star K :=
  star.new m ⟨0, 0⟩ ⟨0, 0⟩ ⟨0, 0, 0⟩ ⟨0, 0⟩

/-- In double arithmetic: a body of mass 1 at rest at the origin on which the
force `(1e16, 0)` has been accumulated. -/
def loadedBody : star double :=
  (bodyOfMass 1).addForce ⟨1e16, 0⟩

/-- In double arithmetic: the mass `0x1.c000000000001p+1`, the double next
above `3.5`. -/
def massLow : double :=
  ⟨7881299347898369 / 2251799813685248⟩

/-- In double arithmetic: the mass `0x1.c000000000002p+1`, the double next
above `massLow`. -/
def massHigh : double :=
  ⟨3940649673949185 / 1125899906842624⟩

/-! ## Theorems -/

/-! ### Rounding to binary64 -/

/-- With enough fuel, `halvings` is the integer binary logarithm. -/
theorem halvings_spec (fuel n : Nat) (h1 : 1 ≤ n) (hf : n ≤ fuel) :
    2 ^ halvings fuel n ≤ n ∧ n < 2 ^ (halvings fuel n + 1) := by
  induction fuel generalizing n with
  | zero => omega
  | succ f ih =>
    unfold halvings
    by_cases h2 : n < 2
    · simp only [h2, if_true]
      constructor
      · simpa using h1
      · simpa using h2
    · simp only [h2, if_false]
      obtain ⟨ha, hb⟩ := ih (n / 2) (by omega) (by omega)
      rw [pow_succ, pow_succ]
      generalize 2 ^ halvings f (n / 2) = P at ha hb ⊢
      rw [pow_succ] at hb
      constructor <;> omega

/-- A nonzero rational lies between the consecutive powers of two given by its
binary exponent. -/
theorem binaryExponent_spec (q : ℚ) (hq : q ≠ 0) :
    (2 : ℚ) ^ binaryExponent q ≤ |q| ∧ |q| < (2 : ℚ) ^ (binaryExponent q + 1) := by
  have hnum : 1 ≤ q.num.natAbs := Nat.one_le_iff_ne_zero.mpr (by simpa using hq)
  have hden : 1 ≤ q.den := q.den_pos
  obtain ⟨ha, hb⟩ := halvings_spec q.num.natAbs q.num.natAbs hnum le_rfl
  obtain ⟨hc, hd⟩ := halvings_spec q.den q.den hden le_rfl
  have habs : |q| = (q.num.natAbs : ℚ) / (q.den : ℚ) := by
    conv_lhs => rw [← Rat.num_div_den q]
    rw [abs_div, Nat.abs_cast, Nat.cast_natAbs, Int.cast_abs]
  have hA1 : (2 : ℚ) ^ halvings q.num.natAbs q.num.natAbs ≤ (q.num.natAbs : ℚ) := by
    exact_mod_cast ha
  have hA2 : (q.num.natAbs : ℚ) < 2 * (2 : ℚ) ^ halvings q.num.natAbs q.num.natAbs := by
    rw [pow_succ] at hb
    have : (q.num.natAbs : ℚ) < (2 : ℚ) ^ halvings q.num.natAbs q.num.natAbs * 2 := by
      exact_mod_cast hb
    linarith
  have hD1 : (2 : ℚ) ^ halvings q.den q.den ≤ (q.den : ℚ) := by
    exact_mod_cast hc
  have hD2 : (q.den : ℚ) < 2 * (2 : ℚ) ^ halvings q.den q.den := by
    rw [pow_succ] at hd
    have : (q.den : ℚ) < (2 : ℚ) ^ halvings q.den q.den * 2 := by
      exact_mod_cast hd
    linarith
  have hP : (0 : ℚ) < (2 : ℚ) ^ halvings q.num.natAbs q.num.natAbs := by positivity
  have hQ : (0 : ℚ) < (2 : ℚ) ^ halvings q.den q.den := by positivity
  have hD : (0 : ℚ) < (q.den : ℚ) := by exact_mod_cast q.den_pos
  have hk : (2 : ℚ) ^ ((halvings q.num.natAbs q.num.natAbs : ℤ) - (halvings q.den q.den : ℤ))
      = (2 : ℚ) ^ halvings q.num.natAbs q.num.natAbs / (2 : ℚ) ^ halvings q.den q.den := by
    rw [zpow_sub₀ (by norm_num : (2 : ℚ) ≠ 0), zpow_natCast, zpow_natCast]
  unfold binaryExponent
  by_cases hle :
      (2 : ℚ) ^ ((halvings q.num.natAbs q.num.natAbs : ℤ) - (halvings q.den q.den : ℤ)) ≤ |q|
  · rw [if_pos hle]
    refine ⟨hle, ?_⟩
    rw [zpow_add₀ (by norm_num : (2 : ℚ) ≠ 0), hk, zpow_one, habs, div_mul_eq_mul_div,
      div_lt_div_iff₀ hD hQ]
    nlinarith
  · rw [if_neg hle]
    refine ⟨?_, ?_⟩
    · rw [zpow_sub₀ (by norm_num : (2 : ℚ) ≠ 0), hk, zpow_one, habs, div_div,
        div_le_div_iff₀ (by positivity) hD]
      nlinarith
    · rw [sub_add_cancel]
      exact lt_of_not_le hle

/-- An integer is its own nearest integer. -/
theorem roundEven_intCast (z : ℤ) : roundEven (z : ℚ) = z := by
  unfold roundEven
  rw [Int.floor_intCast, sub_self, if_pos (by norm_num)]

/-- Rounding to the nearest integer stays within integer bounds. -/
theorem roundEven_bounds (t : ℚ) (N : ℤ) (h1 : -(N : ℚ) ≤ t) (h2 : t ≤ N) :
    -N ≤ roundEven t ∧ roundEven t ≤ N := by
  have hlo : -N ≤ ⌊t⌋ := Int.le_floor.mpr (by push_cast; exact h1)
  have hhi : ⌊t⌋ ≤ N := by
    have : (⌊t⌋ : ℚ) ≤ N := le_trans (Int.floor_le t) h2
    exact_mod_cast this
  have hstep : ¬ (t - ⌊t⌋ < 1 / 2) → ⌊t⌋ + 1 ≤ N := by
    intro h
    have hlt : (⌊t⌋ : ℚ) < N := by linarith
    have : ⌊t⌋ < N := by exact_mod_cast hlt
    omega
  unfold roundEven
  split_ifs with c1 c2 c3
  · exact ⟨hlo, hhi⟩
  · exact ⟨by omega, hstep c1⟩
  · exact ⟨hlo, hhi⟩
  · exact ⟨by omega, hstep c1⟩

/-- Zero is a binary64 number. -/
theorem round64_zero : round64 0 = 0 := by
  unfold round64
  rw [zero_div]
  have : roundEven 0 = 0 := by simpa using roundEven_intCast 0
  rw [this]
  simp

/-- A rational `n · 2 ^ e` with `|n| < 2 ^ 53` and `e ≥ -1074` is a binary64
number: rounding leaves it unchanged. -/
theorem round64_of_repr (n e : ℤ) (hn : |n| < 2 ^ 53) (he : -1074 ≤ e) :
    round64 ((n : ℚ) * 2 ^ e) = (n : ℚ) * 2 ^ e := by
  by_cases h0 : n = 0
  · subst h0
    simp [round64_zero]
  have h2e : (0 : ℚ) < (2 : ℚ) ^ e := by positivity
  have hx : (n : ℚ) * 2 ^ e ≠ 0 := mul_ne_zero (by exact_mod_cast h0) h2e.ne.symm
  obtain ⟨hL, _⟩ := binaryExponent_spec _ hx
  have habs : |(n : ℚ) * 2 ^ e| < (2 : ℚ) ^ (53 + e) := by
    rw [abs_mul, abs_of_pos h2e, zpow_add₀ (by norm_num : (2 : ℚ) ≠ 0)]
    have : |(n : ℚ)| < (2 : ℚ) ^ (53 : ℤ) := by
      have h : ((|n| : ℤ) : ℚ) < ((2 ^ 53 : ℤ) : ℚ) := by exact_mod_cast hn
      rw [Int.cast_abs] at h
      norm_num at h ⊢
      exact h
    exact mul_lt_mul_of_pos_right this h2e
  have hlt : binaryExponent ((n : ℚ) * 2 ^ e) < 53 + e :=
    (zpow_lt_zpow_iff_right₀ (by norm_num : (1 : ℚ) < 2)).mp (lt_of_le_of_lt hL habs)
  have hE : ulpExponent ((n : ℚ) * 2 ^ e) ≤ e := by
    unfold ulpExponent
    exact max_le (by omega) he
  unfold round64
  generalize ulpExponent ((n : ℚ) * 2 ^ e) = E at hE
  obtain ⟨k, hk⟩ : ∃ k : ℕ, e = E + k := ⟨(e - E).toNat, by omega⟩
  have hquot : (n : ℚ) * 2 ^ e / 2 ^ E = ((n * 2 ^ k : ℤ) : ℚ) := by
    rw [hk, zpow_add₀ (by norm_num : (2 : ℚ) ≠ 0), zpow_natCast]
    have : (2 : ℚ) ^ E ≠ 0 := by positivity
    field_simp
    ring
  rw [hquot, roundEven_intCast, hk, zpow_add₀ (by norm_num : (2 : ℚ) ≠ 0), zpow_natCast]
  push_cast
  ring

/-- Every value of `round64` has the form `n · 2 ^ e` with `|n| < 2 ^ 53` and
`e ≥ -1074`. -/
theorem round64_repr (q : ℚ) :
    ∃ n e : ℤ, |n| < 2 ^ 53 ∧ -1074 ≤ e ∧ round64 q = (n : ℚ) * 2 ^ e := by
  by_cases h0 : q = 0
  · exact ⟨0, 0, by norm_num, by norm_num, by rw [h0, round64_zero]; simp⟩
  obtain ⟨_, hU⟩ := binaryExponent_spec q h0
  have hE1 : binaryExponent q - 52 ≤ ulpExponent q := le_max_left _ _
  have hE2 : -1074 ≤ ulpExponent q := le_max_right _ _
  unfold round64
  generalize ulpExponent q = E at hE1 hE2
  have h2E : (0 : ℚ) < (2 : ℚ) ^ E := by positivity
  have hq : |q| < (2 : ℚ) ^ (53 : ℤ) * 2 ^ E := by
    rw [← zpow_add₀ (by norm_num : (2 : ℚ) ≠ 0)]
    exact lt_of_lt_of_le hU (zpow_le_zpow_right₀ (by norm_num) (by omega))
  have ht : |q / 2 ^ E| < ((2 ^ 53 : ℤ) : ℚ) := by
    rw [abs_div, abs_of_pos h2E, div_lt_iff₀ h2E]
    norm_num at hq ⊢
    exact hq
  obtain ⟨hlo, hhi⟩ := roundEven_bounds (q / 2 ^ E) (2 ^ 53)
    (by have := (abs_lt.mp ht).1; linarith) (by have := (abs_lt.mp ht).2; linarith)
  by_cases hmax : |roundEven (q / 2 ^ E)| < 2 ^ 53
  · exact ⟨roundEven (q / 2 ^ E), E, hmax, hE2, rfl⟩
  · have hcase : roundEven (q / 2 ^ E) = 2 ^ 53 ∨ roundEven (q / 2 ^ E) = -2 ^ 53 := by
      rcases le_or_lt 0 (roundEven (q / 2 ^ E)) with hs | hs
      · left
        rw [abs_of_nonneg hs] at hmax
        omega
      · right
        rw [abs_of_neg hs] at hmax
        omega
    rcases hcase with hc | hc
    · refine ⟨2 ^ 52, E + 1, by norm_num, by omega, ?_⟩
      rw [hc, zpow_add₀ (by norm_num : (2 : ℚ) ≠ 0)]
      push_cast
      ring
    · refine ⟨-2 ^ 52, E + 1, by norm_num, by omega, ?_⟩
      rw [hc, zpow_add₀ (by norm_num : (2 : ℚ) ≠ 0)]
      push_cast
      ring

/-- Rounding a binary64 number gives it back. -/
theorem round64_idem (q : ℚ) : round64 (round64 q) = round64 q := by
  obtain ⟨n, e, hn, he, h⟩ := round64_repr q
  rw [h]
  exact round64_of_repr n e hn he

/-- The double `0` has value `0`. -/
theorem double_zero_val : (0 : double).val = 0 := by
  show round64 ((0 : ℕ) : ℚ) = 0
  rw [Nat.cast_zero, round64_zero]

/-- The value of a sum of doubles. -/
theorem double_add_val (a b : double) : (a + b).val = round64 (a.val + b.val) :=
  rfl

/-- Adding the double `0` to a binary64 number gives it back. -/
theorem double_zero_add (x : double) (hx : x.binary64) : 0 + x = x := by
  cases x with
  | mk v =>
    show (⟨round64 ((0 : double).val + v)⟩ : double) = ⟨v⟩
    rw [double_zero_val, zero_add]
    exact congrArg double.mk hx

/-- Double addition is commutative. -/
theorem double_add_comm (a b : double) : a + b = b + a := by
  show (⟨round64 (a.val + b.val)⟩ : double) = ⟨round64 (b.val + a.val)⟩
  rw [add_comm]

/-- A sum of doubles is a binary64 number. -/
theorem double_add_binary64 (a b : double) : (a + b).binary64 :=
  round64_idem (a.val + b.val)

/-! ### The operations of `star` -/

/-- Equality of vectors is equality of both components. -/
theorem vec2d_eq_iff {K : Type} (a b : vec2d K) : a = b ↔ a.x = b.x ∧ a.y = b.y := by
  cases a; cases b; simp

section Theorems

variable {K : Type} [Field K]

theorem vec2d_add_x (a b : vec2d K) : (a + b).x = a.x + b.x := rfl
theorem vec2d_add_y (a b : vec2d K) : (a + b).y = a.y + b.y := rfl
theorem vec2d_sub_x (a b : vec2d K) : (a - b).x = a.x - b.x := rfl
theorem vec2d_sub_y (a b : vec2d K) : (a - b).y = a.y - b.y := rfl
theorem vec2d_mul_x (a : vec2d K) (k : K) : (a * k).x = a.x * k := rfl
theorem vec2d_mul_y (a : vec2d K) (k : K) : (a * k).y = a.y * k := rfl
theorem vec2d_div_x (a : vec2d K) (k : K) : (a / k).x = a.x / k := rfl
theorem vec2d_div_y (a : vec2d K) (k : K) : (a / k).y = a.y / k := rfl

/-- The position, history and flag written by the first-step branch of `update`. -/
theorem update_fresh (s : star K) (dt : K) (h : s.initialized = 0) :
    (s.update dt).pos = s.pos + s.vel * dt + s.force / s.mass / (2 : K) * dt * dt ∧
    (s.update dt).prev_pos = s.pos ∧ (s.update dt).initialized = 1 := by
  simp [star.update, h]

/-- The position, history and flag written by the later-steps branch of `update`. -/
theorem update_later (s : star K) (dt : K) (h : s.initialized ≠ 0) :
    (s.update dt).pos = s.pos * (2 : K) - s.prev_pos + s.force / s.mass * dt * dt ∧
    (s.update dt).prev_pos = s.pos ∧ (s.update dt).initialized = s.initialized := by
  simp [star.update, h]

/-- The velocity and force written by `update`, whichever branch is taken. -/
theorem update_vel_force (s : star K) (dt : K) :
    (s.update dt).vel = s.vel + s.force / s.mass * dt ∧ (s.update dt).force = ⟨0, 0⟩ := by
  by_cases h : s.initialized = 0 <;> simp [star.update, h]

/-- `update` leaves mass and colour alone. -/
theorem update_mass_color (s : star K) (dt : K) :
    (s.update dt).mass = s.mass ∧ (s.update dt).color = s.color := by
  by_cases h : s.initialized = 0 <;> simp [star.update, h]

/-- C1. Cold-start step: on a body with `initialized = 0`, `update dt` yields
position `p + v·dt + ½·(F/m)·dt²` (in each component), previous position `p`
and `initialized = 1`, i.e. stepped; when `F` is the zero vector the new
position is `p + v·dt`. -/
theorem update_cold_start (s : star K) (dt : K) (h : s.initialized = 0) :
    (s.update dt).pos =
        ⟨s.pos.x + s.vel.x * dt + 1 / 2 * (s.force.x / s.mass) * dt ^ 2,
         s.pos.y + s.vel.y * dt + 1 / 2 * (s.force.y / s.mass) * dt ^ 2⟩ ∧
      (s.update dt).prev_pos = s.pos ∧
      (s.update dt).initialized = 1 ∧ (s.update dt).initialized ≠ 0 ∧
      (s.force = ⟨0, 0⟩ →
        (s.update dt).pos = ⟨s.pos.x + s.vel.x * dt, s.pos.y + s.vel.y * dt⟩) := by
  obtain ⟨hp, hq, hi⟩ := update_fresh s dt h
  refine ⟨?_, hq, hi, by rw [hi]; decide, ?_⟩
  · rw [hp, vec2d_eq_iff]
    simp only [vec2d_add_x, vec2d_add_y, vec2d_mul_x, vec2d_mul_y, vec2d_div_x, vec2d_div_y]
    constructor <;> ring
  · intro hF
    rw [hp, hF, vec2d_eq_iff]
    simp [vec2d_add_x, vec2d_add_y, vec2d_mul_x, vec2d_mul_y, vec2d_div_x, vec2d_div_y]

/-- Witness of C1 on `freshBody` with `dt = 1/2`. -/
theorem update_cold_start_witness :
    freshBody.initialized = 0 ∧
    ((freshBody.update (1 / 2)).pos =
        ⟨freshBody.pos.x + freshBody.vel.x * (1 / 2)
            + 1 / 2 * (freshBody.force.x / freshBody.mass) * (1 / 2) ^ 2,
         freshBody.pos.y + freshBody.vel.y * (1 / 2)
            + 1 / 2 * (freshBody.force.y / freshBody.mass) * (1 / 2) ^ 2⟩ ∧
      (freshBody.update (1 / 2)).prev_pos = freshBody.pos ∧
      (freshBody.update (1 / 2)).initialized = 1 ∧ (freshBody.update (1 / 2)).initialized ≠ 0 ∧
      (freshBody.force = ⟨0, 0⟩ →
        (freshBody.update (1 / 2)).pos =
          ⟨freshBody.pos.x + freshBody.vel.x * (1 / 2),
           freshBody.pos.y + freshBody.vel.y * (1 / 2)⟩)) :=
  ⟨by decide, update_cold_start freshBody (1 / 2) (by decide)⟩

/-- C2. Verlet step: on a body with `initialized ≠ 0`, `update dt` yields
position `2·p − q + (F/m)·dt²` (in each component), previous position `p`, and
the flag is unchanged, so the body is still stepped; the result position is the
same whatever the velocity field holds. -/
theorem update_verlet (s : star K) (dt : K) (h : s.initialized ≠ 0) :
    (s.update dt).pos =
        ⟨2 * s.pos.x - s.prev_pos.x + s.force.x / s.mass * dt ^ 2,
         2 * s.pos.y - s.prev_pos.y + s.force.y / s.mass * dt ^ 2⟩ ∧
      (s.update dt).prev_pos = s.pos ∧
      (s.update dt).initialized = s.initialized ∧ (s.update dt).initialized ≠ 0 ∧
      (∀ v : vec2d K, ({ s with vel := v }.update dt).pos = (s.update dt).pos) := by
  obtain ⟨hp, hq, hi⟩ := update_later s dt h
  refine ⟨?_, hq, hi, by rw [hi]; exact h, ?_⟩
  · rw [hp, vec2d_eq_iff]
    simp only [vec2d_add_x, vec2d_add_y, vec2d_sub_x, vec2d_sub_y, vec2d_mul_x, vec2d_mul_y,
      vec2d_div_x, vec2d_div_y]
    constructor <;> ring
  · intro v
    rw [hp, (update_later { s with vel := v } dt h).1]

/-- Witness of C2 on `steppedBody` with `dt = 1/2`. -/
theorem update_verlet_witness :
    steppedBody.initialized ≠ 0 ∧
    ((steppedBody.update (1 / 2)).pos =
        ⟨2 * steppedBody.pos.x - steppedBody.prev_pos.x
            + steppedBody.force.x / steppedBody.mass * (1 / 2) ^ 2,
         2 * steppedBody.pos.y - steppedBody.prev_pos.y
            + steppedBody.force.y / steppedBody.mass * (1 / 2) ^ 2⟩ ∧
      (steppedBody.update (1 / 2)).prev_pos = steppedBody.pos ∧
      (steppedBody.update (1 / 2)).initialized = steppedBody.initialized ∧
      (steppedBody.update (1 / 2)).initialized ≠ 0 ∧
      (∀ v : vec2d ℚ,
        ({ steppedBody with vel := v }.update (1 / 2)).pos = (steppedBody.update (1 / 2)).pos)) :=
  ⟨by decide, update_verlet steppedBody (1 / 2) (by decide)⟩

/-- C3. Force reset: after `update dt` the accumulated force is the zero vector
`(0, 0)`, for every body, stepped or not, and every accumulated force. -/
theorem update_resets_force (s : star K) (dt : K) : (s.update dt).force = ⟨0, 0⟩ :=
  (update_vel_force s dt).2

/-- C4. Velocity tracking: after `update dt` the velocity is `v + (F/m)·dt` (in
each component), in the first-step branch and in the later-steps branch alike. -/
theorem update_tracks_velocity (s : star K) (dt : K) :
    (s.update dt).vel =
      ⟨s.vel.x + s.force.x / s.mass * dt, s.vel.y + s.force.y / s.mass * dt⟩ := by
  rw [(update_vel_force s dt).1, vec2d_eq_iff]
  simp only [vec2d_add_x, vec2d_add_y, vec2d_mul_x, vec2d_mul_y, vec2d_div_x, vec2d_div_y]
  exact ⟨trivial, trivial⟩

/-- Accumulating two forces in either order, or their sum at once, leaves the
same body. -/
theorem addForce_addForce (s : star K) (a b : vec2d K) :
    (s.addForce a).addForce b = (s.addForce b).addForce a ∧
      (s.addForce a).addForce b = s.addForce (a + b) := by
  have h1 : s.force + a + b = s.force + b + a := by
    rw [vec2d_eq_iff]
    simp only [vec2d_add_x, vec2d_add_y]
    constructor <;> ring
  have h2 : s.force + a + b = s.force + (a + b) := by
    rw [vec2d_eq_iff]
    simp only [vec2d_add_x, vec2d_add_y]
    constructor <;> ring
  simp only [star.addForce]
  exact ⟨by rw [h1], by rw [h2]⟩

/-- In double arithmetic, on a body with no force accumulated: accumulating two
binary64 forces in either order, or their double sum at once, leaves the same
body. -/
theorem addForce_addForce_double (s : star double) (a b : vec2d double)
    (hs : s.force = ⟨0, 0⟩) (ha : a.binary64) (hb : b.binary64) :
    (s.addForce a).addForce b = (s.addForce b).addForce a ∧
      (s.addForce a).addForce b = s.addForce (a + b) := by
  have e1 : (⟨0, 0⟩ : vec2d double) + a + b = ⟨a.x + b.x, a.y + b.y⟩ := by
    rw [vec2d_eq_iff]
    exact ⟨congrArg (· + b.x) (double_zero_add a.x ha.1),
      congrArg (· + b.y) (double_zero_add a.y ha.2)⟩
  have e2 : (⟨0, 0⟩ : vec2d double) + b + a = ⟨a.x + b.x, a.y + b.y⟩ := by
    rw [vec2d_eq_iff]
    exact ⟨(congrArg (· + a.x) (double_zero_add b.x hb.1)).trans (double_add_comm b.x a.x),
      (congrArg (· + a.y) (double_zero_add b.y hb.2)).trans (double_add_comm b.y a.y)⟩
  have e3 : (⟨0, 0⟩ : vec2d double) + (a + b) = ⟨a.x + b.x, a.y + b.y⟩ := by
    rw [vec2d_eq_iff]
    exact ⟨double_zero_add (a.x + b.x) (double_add_binary64 a.x b.x),
      double_zero_add (a.y + b.y) (double_add_binary64 a.y b.y)⟩
  simp only [star.addForce, hs]
  exact ⟨by rw [e1, e2], by rw [e1, e3]⟩

/-- C5, counterexample. In double arithmetic, on the body with the force
`(1e16, 0)` accumulated, `addForce (1, 0); addForce (-1e16, 0)` leaves the force
`(0, 0)` and `addForce (-1e16, 0); addForce (1, 0)` leaves the force `(1, 0)`:
after `update 1` the positions are `(0, 0)` and `(1/2, 0)`, so the two post-step
states differ. -/
theorem update_addForce_additive_counterexample :
    ((loadedBody.addForce ⟨1, 0⟩).addForce ⟨-1e16, 0⟩).force = ⟨0, 0⟩ ∧
      ((loadedBody.addForce ⟨-1e16, 0⟩).addForce ⟨1, 0⟩).force = ⟨1, 0⟩ ∧
      (((loadedBody.addForce ⟨1, 0⟩).addForce ⟨-1e16, 0⟩).update 1).pos = ⟨0, 0⟩ ∧
      (((loadedBody.addForce ⟨-1e16, 0⟩).addForce ⟨1, 0⟩).update 1).pos = ⟨⟨1 / 2⟩, 0⟩ ∧
      ((loadedBody.addForce ⟨1, 0⟩).addForce ⟨-1e16, 0⟩).update 1
        ≠ ((loadedBody.addForce ⟨-1e16, 0⟩).addForce ⟨1, 0⟩).update 1 := by
  decide!

/-- C5, amended. Additivity of force accumulation: in exact arithmetic, for
every body, `addForce a; addForce b; update dt`, `addForce b; addForce a;
update dt` and `addForce (a + b); update dt` produce the same post-step body,
all fields included; in double arithmetic they do so for every body whose
accumulated force is the zero vector before the calls. -/
theorem update_addForce_additive :
    (∀ (F : Type) [Field F] (s : star F) (a b : vec2d F) (dt : F),
      ((s.addForce a).addForce b).update dt = ((s.addForce b).addForce a).update dt ∧
        ((s.addForce a).addForce b).update dt = (s.addForce (a + b)).update dt) ∧
    (∀ (s : star double) (a b : vec2d double) (dt : double),
      s.force = ⟨0, 0⟩ → a.binary64 → b.binary64 →
      ((s.addForce a).addForce b).update dt = ((s.addForce b).addForce a).update dt ∧
        ((s.addForce a).addForce b).update dt = (s.addForce (a + b)).update dt) := by
  constructor
  · intro F _ s a b dt
    obtain ⟨h1, h2⟩ := addForce_addForce s a b
    exact ⟨by rw [h1], by rw [h2]⟩
  · intro s a b dt hs ha hb
    obtain ⟨h1, h2⟩ := addForce_addForce_double s a b hs ha hb
    exact ⟨by rw [h1], by rw [h2]⟩

/-- Witness of the amended C5 in double arithmetic: the body of mass 2 with no
force accumulated, the forces `(0.1, 0.2)` and `(0.3, 1e16)`, and `dt = 0.5`. -/
theorem update_addForce_additive_witness :
    ((bodyOfMass (2 : double)).force = ⟨0, 0⟩ ∧
      vec2d.binary64 ⟨0.1, 0.2⟩ ∧ vec2d.binary64 ⟨0.3, 1e16⟩) ∧
    ((((bodyOfMass (2 : double)).addForce ⟨0.1, 0.2⟩).addForce ⟨0.3, 1e16⟩).update 0.5
        = (((bodyOfMass (2 : double)).addForce ⟨0.3, 1e16⟩).addForce ⟨0.1, 0.2⟩).update 0.5 ∧
      (((bodyOfMass (2 : double)).addForce ⟨0.1, 0.2⟩).addForce ⟨0.3, 1e16⟩).update 0.5
        = ((bodyOfMass (2 : double)).addForce (⟨0.1, 0.2⟩ + ⟨0.3, 1e16⟩)).update 0.5) :=
  ⟨⟨rfl, ⟨by unfold double.binary64; decide!, by unfold double.binary64; decide!⟩,
      ⟨by unfold double.binary64; decide!, by unfold double.binary64; decide!⟩⟩,
    update_addForce_additive.2 (bodyOfMass 2) ⟨0.1, 0.2⟩ ⟨0.3, 1e16⟩ 0.5 rfl
      ⟨by unfold double.binary64; decide!, by unfold double.binary64; decide!⟩
      ⟨by unfold double.binary64; decide!, by unfold double.binary64; decide!⟩⟩

end Theorems

section MergeTheorems

variable {K : Type} [LinearOrderedField K] [FloorRing K]

/-- In exact arithmetic the channel of a value is `toChannel` of it. -/
theorem channel_eq_toChannel (v : K) : ToChannel.channel v = toChannel v :=
  rfl

/-- The value `255/2` is converted to the channel `128`. -/
theorem toChannel_half_way : toChannel ((255 : K) / 2) = 128 := by
  have h : ⌊(255 : K) / 2 + 1 / 2⌋ = 128 := by
    rw [Int.floor_eq_iff]
    constructor <;> norm_num
  simp only [toChannel, h]
  rfl

/-- C6. Merge formulas: `A.merge B` has mass `mass_A + mass_B`, position
`(mass_A·position_A + mass_B·position_B) / (mass_A + mass_B)` and velocity
`(mass_A·velocity_A + mass_B·velocity_B) / (mass_A + mass_B)`, in each
component. -/
theorem merge_formulas (a b : star K) (junk : vec2d K) :
    (a.merge b junk).mass = a.mass + b.mass ∧
      (a.merge b junk).pos =
        ⟨(a.mass * a.pos.x + b.mass * b.pos.x) / (a.mass + b.mass),
         (a.mass * a.pos.y + b.mass * b.pos.y) / (a.mass + b.mass)⟩ ∧
      (a.merge b junk).vel =
        ⟨(a.mass * a.vel.x + b.mass * b.vel.x) / (a.mass + b.mass),
         (a.mass * a.vel.y + b.mass * b.vel.y) / (a.mass + b.mass)⟩ := by
  refine ⟨rfl, ?_, ?_⟩
  · simp only [star.merge, star.new, vec2d_eq_iff, vec2d_add_x, vec2d_add_y, vec2d_mul_x,
      vec2d_mul_y, vec2d_div_x, vec2d_div_y]
    constructor <;> ring
  · simp only [star.merge, star.new, vec2d_eq_iff, vec2d_add_x, vec2d_add_y, vec2d_mul_x,
      vec2d_mul_y, vec2d_div_x, vec2d_div_y]
    constructor <;> ring

/-- C7. Merge discards integration history: whatever the flags and accumulated
forces of `A` and `B`, `A.merge B` has accumulated force `(0, 0)` and
`initialized = 0`. -/
theorem merge_never_stepped (a b : star K) (junk : vec2d K) :
    (a.merge b junk).force = ⟨0, 0⟩ ∧ (a.merge b junk).initialized = 0 :=
  ⟨rfl, rfl⟩

/-- C8. Merge conservation example: for `A` (mass 2, position (0,0), velocity
(1,0), color (0,0,0)) and `B` (mass 2, position (4,0), velocity (-1,0), color
(255,255,255)), with any history, force and flag, `A.merge B` has mass 4,
position (2,0), velocity (0,0), color (128,128,128) and `initialized = 0`. -/
theorem merge_conservation_example (qa fa qb fb junk : vec2d K) (ia ib : Int) :
    star.merge
        ({ mass := 2, pos := ⟨0, 0⟩, prev_pos := qa, vel := ⟨1, 0⟩, force := fa,
           color := ⟨0, 0, 0⟩, initialized := ia } : star K)
        { mass := 2, pos := ⟨4, 0⟩, prev_pos := qb, vel := ⟨-1, 0⟩, force := fb,
          color := ⟨255, 255, 255⟩, initialized := ib } junk
      = { mass := 4, pos := ⟨2, 0⟩, prev_pos := junk, vel := ⟨0, 0⟩, force := ⟨0, 0⟩,
          color := ⟨128, 128, 128⟩, initialized := 0 } := by
  have h0 : ((0 : Fin 256) : Nat) = 0 := rfl
  have h255 : ((255 : Fin 256) : Nat) = 255 := rfl
  have hc : ((((0 : Fin 256) : Nat) : K) * 2 + (((255 : Fin 256) : Nat) : K) * 2) / (2 + 2)
      = (255 : K) / 2 := by
    rw [h0, h255]
    norm_num
  simp only [star.merge, star.new, rgb32.ofValues, hc, channel_eq_toChannel,
    toChannel_half_way, star.mk.injEq,
    vec2d_eq_iff, vec2d_add_x, vec2d_add_y, vec2d_mul_x, vec2d_mul_y, vec2d_div_x, vec2d_div_y]
  norm_num

/-- C9. Merge is order-independent: `A.merge B` and `B.merge A` have equal mass,
equal position, equal velocity and equal color. -/
theorem merge_comm (a b : star K) (j1 j2 : vec2d K) :
    (a.merge b j1).mass = (b.merge a j2).mass ∧
      (a.merge b j1).pos = (b.merge a j2).pos ∧
      (a.merge b j1).vel = (b.merge a j2).vel ∧
      (a.merge b j1).color = (b.merge a j2).color := by
  have hm : a.mass + b.mass = b.mass + a.mass := add_comm _ _
  have hv : ∀ u v : vec2d K, u * a.mass + v * b.mass = v * b.mass + u * a.mass := by
    intro u v
    rw [vec2d_eq_iff]
    simp only [vec2d_add_x, vec2d_add_y]
    exact ⟨add_comm _ _, add_comm _ _⟩
  have hs : ∀ u v : K, u * a.mass + v * b.mass = v * b.mass + u * a.mass :=
    fun u v => add_comm _ _
  simp only [star.merge, star.new]
  refine ⟨hm, ?_, ?_, ?_⟩
  · rw [hv, hm]
  · rw [hv, hm]
  · rw [hs (a.color.red : Nat), hs (a.color.green : Nat), hs (a.color.blue : Nat), hm]

end MergeTheorems

section RadiusTheorems

/-- The radius of the body of mass `3.14` is `1/4`, with `pow` the real power. -/
theorem radius_at_314 :
    (bodyOfMass (3.14 : ℝ)).radius (fun x y => x ^ y) = 1 / 4 := by
  have h : (3.14 : ℝ) / 3.14 = 1 := by norm_num
  simp only [star.radius, bodyOfMass, star.new, h, Real.one_rpow]

/-- C10, counterexample. For the body of mass `3.14`, which is positive,
`radius()` is not `(m / π)^0.33 / 4` with `π` the mathematical constant: the
code divides the mass by the literal `3.14`. -/
theorem radius_pi_counterexample :
    0 < (bodyOfMass (3.14 : ℝ)).mass ∧
      (bodyOfMass (3.14 : ℝ)).radius (fun x y => x ^ y)
        ≠ ((bodyOfMass (3.14 : ℝ)).mass / Real.pi) ^ (0.33 : ℝ) / 4 := by
  have hm : (bodyOfMass (3.14 : ℝ)).mass = 3.14 := rfl
  refine ⟨by rw [hm]; norm_num, ?_⟩
  rw [radius_at_314, hm]
  have hlt : (3.14 : ℝ) / Real.pi < 1 := by
    rw [div_lt_one Real.pi_pos]
    exact Real.pi_gt_d2
  have hnn : (0 : ℝ) ≤ 3.14 / Real.pi := by positivity
  have hpow : ((3.14 : ℝ) / Real.pi) ^ (0.33 : ℝ) < 1 :=
    Real.rpow_lt_one hnn hlt (by norm_num)
  intro heq
  linarith

/-- C10, amended. For every body with mass `m > 0`, `radius()` equals
`(m / 3.14)^0.33 / 4`, with the literal `3.14` of the code in the place of `π`
and `pow` the real power. -/
theorem radius_formula (s : star ℝ) (_h : 0 < s.mass) :
    s.radius (fun x y => x ^ y) = (s.mass / 3.14) ^ (0.33 : ℝ) / 4 :=
  rfl

/-- Witness of the amended C10 on the body of mass `2`. -/
theorem radius_formula_witness :
    0 < (bodyOfMass (2 : ℝ)).mass ∧
      (bodyOfMass (2 : ℝ)).radius (fun x y => x ^ y)
        = ((bodyOfMass (2 : ℝ)).mass / 3.14) ^ (0.33 : ℝ) / 4 :=
  ⟨by simp [bodyOfMass, star.new],
    radius_formula (bodyOfMass (2 : ℝ)) (by simp [bodyOfMass, star.new])⟩

/-- C11, counterexample. In double arithmetic the masses `massLow < massHigh`,
adjacent doubles just above `3.5`, have the same quotient by `3.14`, so the
bodies of these masses have the same radius whatever `pow` returns: the radius
is not strictly increasing. -/
theorem radius_strictMono_counterexample :
    (0 : double) < massLow ∧ massLow < massHigh ∧
      massLow.binary64 ∧ massHigh.binary64 ∧
      massLow / (3.14 : double) = massHigh / (3.14 : double) ∧
      ∀ pow : double → double → double,
        (bodyOfMass massLow).radius pow = (bodyOfMass massHigh).radius pow ∧
        ¬ ((bodyOfMass massLow).radius pow < (bodyOfMass massHigh).radius pow) := by
  have hq : massLow / (3.14 : double) = massHigh / (3.14 : double) := by decide!
  have hr : ∀ pow : double → double → double,
      (bodyOfMass massLow).radius pow = (bodyOfMass massHigh).radius pow := by
    intro pow
    show pow (massLow / (3.14 : double)) 0.33 / 4 = pow (massHigh / (3.14 : double)) 0.33 / 4
    rw [hq]
  refine ⟨?_, ?_, ?_, ?_, hq, fun pow => ⟨hr pow, ?_⟩⟩
  · show (0 : double).val < massLow.val
    decide!
  · show massLow.val < massHigh.val
    decide!
  · unfold double.binary64
    decide!
  · unfold double.binary64
    decide!
  · rw [hr pow]
    exact lt_irrefl ((bodyOfMass massHigh).radius pow).val

/-- C11, amended. Radius monotonicity in exact real arithmetic: for masses
`0 < m1 < m2` the radius of a body of mass `m1` is strictly less than the radius
of a body of mass `m2`, with `pow` the real power. -/
theorem radius_strictMono (s1 s2 : star ℝ) (h1 : 0 < s1.mass) (h12 : s1.mass < s2.mass) :
    s1.radius (fun x y => x ^ y) < s2.radius (fun x y => x ^ y) := by
  have hnn : (0 : ℝ) ≤ s1.mass / 3.14 := by positivity
  have hlt : s1.mass / 3.14 < s2.mass / 3.14 :=
    div_lt_div_of_pos_right h12 (by norm_num)
  have hpow : (s1.mass / 3.14) ^ (0.33 : ℝ) < (s2.mass / 3.14) ^ (0.33 : ℝ) :=
    Real.rpow_lt_rpow hnn hlt (by norm_num)
  simp only [star.radius]
  linarith

/-- Witness of the amended C11 on the bodies of mass `1` and `2`. -/
theorem radius_strictMono_witness :
    (0 < (bodyOfMass (1 : ℝ)).mass ∧ (bodyOfMass (1 : ℝ)).mass < (bodyOfMass (2 : ℝ)).mass) ∧
      (bodyOfMass (1 : ℝ)).radius (fun x y => x ^ y)
        < (bodyOfMass (2 : ℝ)).radius (fun x y => x ^ y) :=
  ⟨⟨by simp [bodyOfMass, star.new], by simp [bodyOfMass, star.new]⟩,
    radius_strictMono (bodyOfMass (1 : ℝ)) (bodyOfMass (2 : ℝ))
      (by simp [bodyOfMass, star.new]) (by simp [bodyOfMass, star.new])⟩

end RadiusTheorems

section StepTheorems

variable {K : Type} [Field K]

/-- C13. Verlet inertial property: for a stepped body with no force accumulated
and two further `update(dt)` calls, with `x0` the position before them, `x1`
after the first and `x2` after the second, `x2 = 2·x1 − x0` and
`x1 = 2·x0 − previousPosition`; the force is still zero at the second call. -/
theorem update_inertial (s : star K) (dt : K) (h : s.initialized ≠ 0)
    (hF : s.force = ⟨0, 0⟩) :
    ((s.update dt).update dt).pos =
        ⟨2 * (s.update dt).pos.x - s.pos.x, 2 * (s.update dt).pos.y - s.pos.y⟩ ∧
      (s.update dt).pos = ⟨2 * s.pos.x - s.prev_pos.x, 2 * s.pos.y - s.prev_pos.y⟩ ∧
      (s.update dt).force = ⟨0, 0⟩ := by
  obtain ⟨hp, hq, hi⟩ := update_later s dt h
  have hF1 : (s.update dt).force = ⟨0, 0⟩ := (update_vel_force s dt).2
  have h1 : (s.update dt).initialized ≠ 0 := by rw [hi]; exact h
  refine ⟨?_, ?_, hF1⟩
  · rw [(update_later (s.update dt) dt h1).1, hq, hF1, vec2d_eq_iff]
    simp only [vec2d_add_x, vec2d_add_y, vec2d_sub_x, vec2d_sub_y, vec2d_mul_x, vec2d_mul_y,
      vec2d_div_x, vec2d_div_y]
    constructor <;> ring
  · rw [hp, hF, vec2d_eq_iff]
    simp only [vec2d_add_x, vec2d_add_y, vec2d_sub_x, vec2d_sub_y, vec2d_mul_x, vec2d_mul_y,
      vec2d_div_x, vec2d_div_y]
    constructor <;> ring

/-- Witness of C13 on `coastingBody` with `dt = 1/2`. -/
theorem update_inertial_witness :
    (coastingBody.initialized ≠ 0 ∧ coastingBody.force = ⟨0, 0⟩) ∧
    (((coastingBody.update (1 / 2)).update (1 / 2)).pos =
        ⟨2 * (coastingBody.update (1 / 2)).pos.x - coastingBody.pos.x,
         2 * (coastingBody.update (1 / 2)).pos.y - coastingBody.pos.y⟩ ∧
      (coastingBody.update (1 / 2)).pos =
        ⟨2 * coastingBody.pos.x - coastingBody.prev_pos.x,
         2 * coastingBody.pos.y - coastingBody.prev_pos.y⟩ ∧
      (coastingBody.update (1 / 2)).force = ⟨0, 0⟩) :=
  ⟨⟨by decide, by decide!⟩, update_inertial coastingBody (1 / 2) (by decide) (by decide!)⟩

/-- C14. Fresh-body state: the body built by the four-argument constructor
reports the given mass, position, velocity and color, has accumulated force
`(0, 0)` and `initialized = 0`. -/
theorem new_state (mass : K) (pos vel : vec2d K) (color : rgb32) (junk : vec2d K) :
    (star.new mass pos vel color junk).mass = mass ∧
      (star.new mass pos vel color junk).pos = pos ∧
      (star.new mass pos vel color junk).vel = vel ∧
      (star.new mass pos vel color junk).color = color ∧
      (star.new mass pos vel color junk).force = ⟨0, 0⟩ ∧
      (star.new mass pos vel color junk).initialized = 0 :=
  ⟨rfl, rfl, rfl, rfl, rfl, rfl⟩

/-- C16. `addForce` only touches the running sum: the accumulated force becomes
`F + f` and mass, position, previous position, velocity, color and the flag are
unchanged. -/
theorem addForce_frame (s : star K) (f : vec2d K) :
    (s.addForce f).force = ⟨s.force.x + f.x, s.force.y + f.y⟩ ∧
      (s.addForce f).mass = s.mass ∧
      (s.addForce f).pos = s.pos ∧
      (s.addForce f).prev_pos = s.prev_pos ∧
      (s.addForce f).vel = s.vel ∧
      (s.addForce f).color = s.color ∧
      (s.addForce f).initialized = s.initialized :=
  ⟨rfl, rfl, rfl, rfl, rfl, rfl, rfl⟩

/-- C20. Sign of `dt` in the Verlet branch: on an already-stepped body,
`update(dt)` and `update(−dt)` give the same position and the same previous
position (and the same mass, force, color and flag); the velocities are
`v + (F/m)·dt` and `v − (F/m)·dt`. -/
theorem update_neg_dt (s : star K) (dt : K) (h : s.initialized ≠ 0) :
    (s.update (-dt)).pos = (s.update dt).pos ∧
      (s.update (-dt)).prev_pos = (s.update dt).prev_pos ∧
      (s.update (-dt)).mass = (s.update dt).mass ∧
      (s.update (-dt)).force = (s.update dt).force ∧
      (s.update (-dt)).color = (s.update dt).color ∧
      (s.update (-dt)).initialized = (s.update dt).initialized ∧
      (s.update dt).vel =
        ⟨s.vel.x + s.force.x / s.mass * dt, s.vel.y + s.force.y / s.mass * dt⟩ ∧
      (s.update (-dt)).vel =
        ⟨s.vel.x - s.force.x / s.mass * dt, s.vel.y - s.force.y / s.mass * dt⟩ := by
  obtain ⟨hp, hq, hi⟩ := update_later s dt h
  obtain ⟨hp', hq', hi'⟩ := update_later s (-dt) h
  obtain ⟨hv, hf⟩ := update_vel_force s dt
  obtain ⟨hv', hf'⟩ := update_vel_force s (-dt)
  obtain ⟨hm, hc⟩ := update_mass_color s dt
  obtain ⟨hm', hc'⟩ := update_mass_color s (-dt)
  refine ⟨?_, by rw [hq, hq'], by rw [hm, hm'], by rw [hf, hf'], by rw [hc, hc'],
    by rw [hi, hi'], ?_, ?_⟩
  · rw [hp, hp', vec2d_eq_iff]
    simp only [vec2d_add_x, vec2d_add_y, vec2d_sub_x, vec2d_sub_y, vec2d_mul_x, vec2d_mul_y,
      vec2d_div_x, vec2d_div_y]
    constructor <;> ring
  · rw [hv, vec2d_eq_iff]
    simp only [vec2d_add_x, vec2d_add_y, vec2d_mul_x, vec2d_mul_y, vec2d_div_x, vec2d_div_y]
    exact ⟨trivial, trivial⟩
  · rw [hv', vec2d_eq_iff]
    simp only [vec2d_add_x, vec2d_add_y, vec2d_mul_x, vec2d_mul_y, vec2d_div_x, vec2d_div_y]
    constructor <;> ring

/-- Witness of C20 on `steppedBody` with `dt = 1/2`. -/
theorem update_neg_dt_witness :
    steppedBody.initialized ≠ 0 ∧
    ((steppedBody.update (-(1 / 2))).pos = (steppedBody.update (1 / 2)).pos ∧
      (steppedBody.update (-(1 / 2))).prev_pos = (steppedBody.update (1 / 2)).prev_pos ∧
      (steppedBody.update (-(1 / 2))).mass = (steppedBody.update (1 / 2)).mass ∧
      (steppedBody.update (-(1 / 2))).force = (steppedBody.update (1 / 2)).force ∧
      (steppedBody.update (-(1 / 2))).color = (steppedBody.update (1 / 2)).color ∧
      (steppedBody.update (-(1 / 2))).initialized = (steppedBody.update (1 / 2)).initialized ∧
      (steppedBody.update (1 / 2)).vel =
        ⟨steppedBody.vel.x + steppedBody.force.x / steppedBody.mass * (1 / 2),
         steppedBody.vel.y + steppedBody.force.y / steppedBody.mass * (1 / 2)⟩ ∧
      (steppedBody.update (-(1 / 2))).vel =
        ⟨steppedBody.vel.x - steppedBody.force.x / steppedBody.mass * (1 / 2),
         steppedBody.vel.y - steppedBody.force.y / steppedBody.mass * (1 / 2)⟩) :=
  ⟨by decide, update_neg_dt steppedBody (1 / 2) (by decide)⟩

end StepTheorems

section OrderedTheorems

variable {K : Type} [LinearOrderedField K] [FloorRing K]

/-- C15. Positive-mass invariant: on a body with `mass > 0`, `addForce` and
`update` leave the mass unchanged, hence positive, and the body returned by
`merge` for two bodies with `mass > 0` has `mass > 0`. -/
theorem mass_pos_preserved (a b : star K) (f junk : vec2d K) (dt : K)
    (ha : 0 < a.mass) (hb : 0 < b.mass) :
    (a.addForce f).mass = a.mass ∧ 0 < (a.addForce f).mass ∧
      (a.update dt).mass = a.mass ∧ 0 < (a.update dt).mass ∧
      0 < (a.merge b junk).mass := by
  have hu : (a.update dt).mass = a.mass := (update_mass_color a dt).1
  have hm : (a.merge b junk).mass = a.mass + b.mass := rfl
  refine ⟨rfl, ha, hu, by rw [hu]; exact ha, ?_⟩
  rw [hm]
  exact add_pos ha hb

/-- Witness of C15 on `freshBody` and `steppedBody`, both of mass `2`. -/
theorem mass_pos_preserved_witness :
    (0 < freshBody.mass ∧ 0 < steppedBody.mass) ∧
    ((freshBody.addForce ⟨3, 4⟩).mass = freshBody.mass ∧
      0 < (freshBody.addForce ⟨3, 4⟩).mass ∧
      (freshBody.update (1 / 2)).mass = freshBody.mass ∧
      0 < (freshBody.update (1 / 2)).mass ∧
      0 < (freshBody.merge steppedBody ⟨0, 0⟩).mass) :=
  ⟨⟨by decide!, by decide!⟩,
    mass_pos_preserved freshBody steppedBody ⟨3, 4⟩ ⟨0, 0⟩ (1 / 2) (by decide!) (by decide!)⟩

/-- C19, counterexample. In double arithmetic, for the bodies of the positive
masses `0.1`, `0.2` and `0.3`, `(A.merge B).merge C` has mass
`0.6000000000000001` and `A.merge (B.merge C)` has mass `0.6`: the masses
differ. -/
theorem merge_assoc_counterexample :
    (0 : double) < 0.1 ∧ (0 : double) < 0.2 ∧ (0 : double) < 0.3 ∧
      (((bodyOfMass (0.1 : double)).merge (bodyOfMass 0.2) ⟨0, 0⟩).merge
          (bodyOfMass 0.3) ⟨0, 0⟩).mass = ⟨1351079888211149 / 2251799813685248⟩ ∧
      ((bodyOfMass (0.1 : double)).merge
          ((bodyOfMass 0.2).merge (bodyOfMass 0.3) ⟨0, 0⟩) ⟨0, 0⟩).mass = 0.6 ∧
      (((bodyOfMass (0.1 : double)).merge (bodyOfMass 0.2) ⟨0, 0⟩).merge
          (bodyOfMass 0.3) ⟨0, 0⟩).mass
        ≠ ((bodyOfMass (0.1 : double)).merge
          ((bodyOfMass 0.2).merge (bodyOfMass 0.3) ⟨0, 0⟩) ⟨0, 0⟩).mass := by
  refine ⟨?_, ?_, ?_, by decide!, by decide!, by decide!⟩
  · show (0 : double).val < (0.1 : double).val
    decide!
  · show (0 : double).val < (0.2 : double).val
    decide!
  · show (0 : double).val < (0.3 : double).val
    decide!

/-- C19, amended. Merge is associative on the physical quantities in exact
arithmetic: for bodies `A`, `B`, `C` with positive masses, `(A.merge B).merge C`
and `A.merge (B.merge C)` have equal mass, equal position and equal velocity. -/
theorem merge_assoc (a b c : star K) (j1 j2 j3 j4 : vec2d K)
    (ha : 0 < a.mass) (hb : 0 < b.mass) (hc : 0 < c.mass) :
    ((a.merge b j1).merge c j2).mass = (a.merge (b.merge c j3) j4).mass ∧
      ((a.merge b j1).merge c j2).pos = (a.merge (b.merge c j3) j4).pos ∧
      ((a.merge b j1).merge c j2).vel = (a.merge (b.merge c j3) j4).vel := by
  have hab : a.mass + b.mass ≠ 0 := (add_pos ha hb).ne.symm
  have hbc : b.mass + c.mass ≠ 0 := (add_pos hb hc).ne.symm
  have habc : a.mass + b.mass + c.mass ≠ 0 := (add_pos (add_pos ha hb) hc).ne.symm
  have habc2 : a.mass + (b.mass + c.mass) ≠ 0 := (add_pos ha (add_pos hb hc)).ne.symm
  simp only [star.merge, star.new, vec2d_eq_iff, vec2d_add_x, vec2d_add_y, vec2d_mul_x,
    vec2d_mul_y, vec2d_div_x, vec2d_div_y]
  refine ⟨add_assoc _ _ _, ⟨?_, ?_⟩, ⟨?_, ?_⟩⟩ <;>
  · field_simp
    ring

/-- Witness of the amended C19 on `freshBody`, `steppedBody` and the body of mass `3`. -/
theorem merge_assoc_witness :
    (0 < freshBody.mass ∧ 0 < steppedBody.mass ∧ 0 < (bodyOfMass (3 : ℚ)).mass) ∧
    (((freshBody.merge steppedBody ⟨0, 0⟩).merge (bodyOfMass 3) ⟨0, 0⟩).mass
        = (freshBody.merge (steppedBody.merge (bodyOfMass 3) ⟨0, 0⟩) ⟨0, 0⟩).mass ∧
      ((freshBody.merge steppedBody ⟨0, 0⟩).merge (bodyOfMass 3) ⟨0, 0⟩).pos
        = (freshBody.merge (steppedBody.merge (bodyOfMass 3) ⟨0, 0⟩) ⟨0, 0⟩).pos ∧
      ((freshBody.merge steppedBody ⟨0, 0⟩).merge (bodyOfMass 3) ⟨0, 0⟩).vel
        = (freshBody.merge (steppedBody.merge (bodyOfMass 3) ⟨0, 0⟩) ⟨0, 0⟩).vel) :=
  ⟨⟨by decide!, by decide!, by decide!⟩,
    merge_assoc freshBody steppedBody (bodyOfMass 3) ⟨0, 0⟩ ⟨0, 0⟩ ⟨0, 0⟩ ⟨0, 0⟩
      (by decide!) (by decide!) (by decide!)⟩

end OrderedTheorems

section TrajectoryTheorems

variable {K : Type} [LinearOrderedField K]

/-- The state of a freshly constructed body after `n + 1` rounds of
`addForce(F); update(dt)`: position and previous position lie on the uniformly
accelerated trajectory at the times `(n + 1)·dt` and `n·dt`, the force is
consumed, the mass is kept and the body is stepped. -/
theorem rounds_invariant (m : K) (p v F : vec2d K) (c : rgb32) (junk : vec2d K) (dt : K)
    (n : Nat) :
    ((star.new m p v c junk).rounds F dt (n + 1)).pos =
        ⟨p.x + v.x * (((n + 1 : Nat) : K) * dt)
            + 1 / 2 * (F.x / m) * (((n + 1 : Nat) : K) * dt) ^ 2,
         p.y + v.y * (((n + 1 : Nat) : K) * dt)
            + 1 / 2 * (F.y / m) * (((n + 1 : Nat) : K) * dt) ^ 2⟩ ∧
      ((star.new m p v c junk).rounds F dt (n + 1)).prev_pos =
        ⟨p.x + v.x * ((n : K) * dt) + 1 / 2 * (F.x / m) * ((n : K) * dt) ^ 2,
         p.y + v.y * ((n : K) * dt) + 1 / 2 * (F.y / m) * ((n : K) * dt) ^ 2⟩ ∧
      ((star.new m p v c junk).rounds F dt (n + 1)).vel =
        ⟨v.x + F.x / m * (((n + 1 : Nat) : K) * dt),
         v.y + F.y / m * (((n + 1 : Nat) : K) * dt)⟩ ∧
      ((star.new m p v c junk).rounds F dt (n + 1)).force = ⟨0, 0⟩ ∧
      ((star.new m p v c junk).rounds F dt (n + 1)).mass = m ∧
      ((star.new m p v c junk).rounds F dt (n + 1)).initialized ≠ 0 := by
  induction n with
  | zero =>
    have h0 : ((star.new m p v c junk).addForce F).initialized = 0 := rfl
    obtain ⟨hp, hq, hi⟩ := update_fresh ((star.new m p v c junk).addForce F) dt h0
    obtain ⟨hv, hf⟩ := update_vel_force ((star.new m p v c junk).addForce F) dt
    obtain ⟨hm, _⟩ := update_mass_color ((star.new m p v c junk).addForce F) dt
    refine ⟨?_, ?_, ?_, hf, hm, by rw [show (star.new m p v c junk).rounds F dt (0 + 1)
      = ((star.new m p v c junk).addForce F).update dt from rfl, hi]; decide⟩
    · rw [show (star.new m p v c junk).rounds F dt (0 + 1)
        = ((star.new m p v c junk).addForce F).update dt from rfl, hp, vec2d_eq_iff]
      simp only [star.addForce, star.new, vec2d_add_x, vec2d_add_y, vec2d_mul_x, vec2d_mul_y,
        vec2d_div_x, vec2d_div_y]
      push_cast
      constructor <;> ring
    · rw [show (star.new m p v c junk).rounds F dt (0 + 1)
        = ((star.new m p v c junk).addForce F).update dt from rfl, hq, vec2d_eq_iff]
      simp only [star.addForce, star.new]
      push_cast
      constructor <;> ring
    · rw [show (star.new m p v c junk).rounds F dt (0 + 1)
        = ((star.new m p v c junk).addForce F).update dt from rfl, hv, vec2d_eq_iff]
      simp only [star.addForce, star.new, vec2d_add_x, vec2d_add_y, vec2d_mul_x, vec2d_mul_y,
        vec2d_div_x, vec2d_div_y]
      push_cast
      constructor <;> ring
  | succ k ih =>
    obtain ⟨ihp, ihq, ihv, ihf, ihm, ihi⟩ := ih
    have hstep : (star.new m p v c junk).rounds F dt (k + 1 + 1)
        = (((star.new m p v c junk).rounds F dt (k + 1)).addForce F).update dt := rfl
    have h1 : (((star.new m p v c junk).rounds F dt (k + 1)).addForce F).initialized ≠ 0 := ihi
    obtain ⟨hp, hq, hi⟩ :=
      update_later (((star.new m p v c junk).rounds F dt (k + 1)).addForce F) dt h1
    obtain ⟨hv, hf⟩ :=
      update_vel_force (((star.new m p v c junk).rounds F dt (k + 1)).addForce F) dt
    obtain ⟨hm, _⟩ :=
      update_mass_color (((star.new m p v c junk).rounds F dt (k + 1)).addForce F) dt
    have ap : (((star.new m p v c junk).rounds F dt (k + 1)).addForce F).pos
        = ((star.new m p v c junk).rounds F dt (k + 1)).pos := rfl
    have aq : (((star.new m p v c junk).rounds F dt (k + 1)).addForce F).prev_pos
        = ((star.new m p v c junk).rounds F dt (k + 1)).prev_pos := rfl
    have av : (((star.new m p v c junk).rounds F dt (k + 1)).addForce F).vel
        = ((star.new m p v c junk).rounds F dt (k + 1)).vel := rfl
    have am : (((star.new m p v c junk).rounds F dt (k + 1)).addForce F).mass
        = ((star.new m p v c junk).rounds F dt (k + 1)).mass := rfl
    have af : (((star.new m p v c junk).rounds F dt (k + 1)).addForce F).force
        = ((star.new m p v c junk).rounds F dt (k + 1)).force + F := rfl
    rw [hstep]
    refine ⟨?_, ?_, ?_, hf, by rw [hm, am, ihm], by rw [hi]; exact h1⟩
    · rw [hp, ap, aq, am, af, ihp, ihq, ihf, ihm, vec2d_eq_iff]
      simp only [vec2d_add_x, vec2d_add_y, vec2d_sub_x, vec2d_sub_y, vec2d_mul_x, vec2d_mul_y,
        vec2d_div_x, vec2d_div_y]
      push_cast
      constructor <;> ring
    · rw [hq, ap, ihp]
    · rw [hv, av, am, af, ihv, ihf, ihm, vec2d_eq_iff]
      simp only [vec2d_add_x, vec2d_add_y, vec2d_mul_x, vec2d_mul_y, vec2d_div_x, vec2d_div_y]
      push_cast
      constructor <;> ring

/-- C18, counterexample. In double arithmetic, the fresh body of mass 3 at
rest at the origin, after 3 rounds of `addForce (1, 0); update 1`, is at
`x = 6755399441055743 / 2^52`, the double below `3/2`, while the closed form
`p + v·(n·dt) + ½·(F/m)·(n·dt)²` is `3/2`, in exact arithmetic and evaluated in
doubles alike. -/
theorem rounds_closed_form_counterexample :
    ((bodyOfMass (3 : double)).rounds ⟨1, 0⟩ 1 3).pos.x
        = ⟨6755399441055743 / 4503599627370496⟩ ∧
      (0 : double) + 0 * (3 * 1) + 1 / 2 * (1 / 3) * ((3 * 1) * (3 * 1)) = ⟨3 / 2⟩ ∧
      (0 : ℚ) + 0 * (3 * 1) + 1 / 2 * (1 / 3) * (3 * 1) ^ 2 = 3 / 2 ∧
      ((bodyOfMass (3 : double)).rounds ⟨1, 0⟩ 1 3).pos.x ≠ ⟨3 / 2⟩ := by
  decide!

/-- C18, amended. Exactness under constant force across the cold-start
transition in exact arithmetic: for a freshly constructed body and every
`n ≥ 1`, after `n` rounds of `addForce(F); update(dt)` the position is
`p + v·(n·dt) + ½·(F/m)·(n·dt)²` and the velocity is `v + (F/m)·(n·dt)`, in each
component. -/
theorem rounds_closed_form (m : K) (p v F : vec2d K) (c : rgb32) (junk : vec2d K) (dt : K)
    (n : Nat) (hn : 1 ≤ n) :
    ((star.new m p v c junk).rounds F dt n).pos =
        ⟨p.x + v.x * ((n : K) * dt) + 1 / 2 * (F.x / m) * ((n : K) * dt) ^ 2,
         p.y + v.y * ((n : K) * dt) + 1 / 2 * (F.y / m) * ((n : K) * dt) ^ 2⟩ ∧
      ((star.new m p v c junk).rounds F dt n).vel =
        ⟨v.x + F.x / m * ((n : K) * dt), v.y + F.y / m * ((n : K) * dt)⟩ := by
  obtain ⟨k, rfl⟩ : ∃ k, n = k + 1 := ⟨n - 1, by omega⟩
  obtain ⟨hp, _, hv, _⟩ := rounds_invariant m p v F c junk dt k
  exact ⟨hp, hv⟩

/-- Witness of the amended C18: mass `2`, start `(0, 0)`, velocity `(1, 0)`, force `(1, 2)`,
`dt = 1/2` and `n = 3`. -/
theorem rounds_closed_form_witness :
    1 ≤ 3 ∧
    (((star.new (2 : ℚ) ⟨0, 0⟩ ⟨1, 0⟩ ⟨0, 0, 0⟩ ⟨7, 7⟩).rounds ⟨1, 2⟩ (1 / 2) 3).pos =
        ⟨0 + 1 * (((3 : Nat) : ℚ) * (1 / 2))
            + 1 / 2 * (1 / 2) * (((3 : Nat) : ℚ) * (1 / 2)) ^ 2,
         0 + 0 * (((3 : Nat) : ℚ) * (1 / 2))
            + 1 / 2 * (2 / 2) * (((3 : Nat) : ℚ) * (1 / 2)) ^ 2⟩ ∧
      ((star.new (2 : ℚ) ⟨0, 0⟩ ⟨1, 0⟩ ⟨0, 0, 0⟩ ⟨7, 7⟩).rounds ⟨1, 2⟩ (1 / 2) 3).vel =
        ⟨1 + 1 / 2 * (((3 : Nat) : ℚ) * (1 / 2)), 0 + 2 / 2 * (((3 : Nat) : ℚ) * (1 / 2))⟩) :=
  ⟨by decide, rounds_closed_form 2 ⟨0, 0⟩ ⟨1, 0⟩ ⟨1, 2⟩ ⟨0, 0, 0⟩ ⟨7, 7⟩ (1 / 2) 3 (by decide)⟩

end TrajectoryTheorems

section LimitTheorems

/-- The velocity increment of `update` is the acceleration `accel` times `dt`. -/
theorem update_vel_accel {K : Type} [Field K] (s : star K) (dt : K) :
    (s.update dt).vel = s.vel + s.accel * dt :=
  (update_vel_force s dt).1

/-- The radius as a function of the mass tends to `0` at `0`. -/
theorem radius_tendsto_zero :
    Filter.Tendsto (fun m : ℝ => (m / 3.14) ^ (0.33 : ℝ) / 4)
      (nhdsWithin 0 (Set.Ioi 0)) (nhds 0) := by
  have hc : Continuous (fun m : ℝ => (m / 3.14) ^ (0.33 : ℝ) / 4) :=
    ((Real.continuous_rpow_const (by norm_num : (0 : ℝ) ≤ 0.33)).comp
      (continuous_id.div_const _)).div_const _
  have h0 : ((0 : ℝ) / 3.14) ^ (0.33 : ℝ) / 4 = 0 := by
    rw [zero_div, Real.zero_rpow (by norm_num), zero_div]
  have ht : Filter.Tendsto (fun m : ℝ => (m / 3.14) ^ (0.33 : ℝ) / 4) (nhds 0)
      (nhds (((0 : ℝ) / 3.14) ^ (0.33 : ℝ) / 4)) := hc.tendsto 0
  rw [h0] at ht
  exact ht.mono_left nhdsWithin_le_nhds

/-- The magnitude of `F / m` for a nonzero `F` grows without bound as `m`
decreases to `0`. -/
theorem accel_tendsto_atTop (F : vec2d ℝ) (hF : F ≠ ⟨0, 0⟩) :
    Filter.Tendsto (fun m : ℝ => Real.sqrt ((F / m).x ^ 2 + (F / m).y ^ 2))
      (nhdsWithin 0 (Set.Ioi 0)) Filter.atTop := by
  have hpos : 0 < F.x ^ 2 + F.y ^ 2 := by
    by_contra hneg
    have hx : F.x ^ 2 = 0 := by nlinarith [sq_nonneg F.x, sq_nonneg F.y]
    have hy : F.y ^ 2 = 0 := by nlinarith [sq_nonneg F.x, sq_nonneg F.y]
    apply hF
    rw [vec2d_eq_iff]
    exact ⟨pow_eq_zero_iff (two_ne_zero) |>.mp hx, pow_eq_zero_iff (two_ne_zero) |>.mp hy⟩
  have hc : 0 < Real.sqrt (F.x ^ 2 + F.y ^ 2) := Real.sqrt_pos.mpr hpos
  have hlim : Filter.Tendsto (fun m : ℝ => Real.sqrt (F.x ^ 2 + F.y ^ 2) * m⁻¹)
      (nhdsWithin 0 (Set.Ioi 0)) Filter.atTop :=
    tendsto_inv_zero_atTop.const_mul_atTop hc
  refine hlim.congr' ?_
  refine eventually_nhdsWithin_of_forall ?_
  intro m hm
  have hm0 : (0 : ℝ) < m := hm
  simp only [vec2d_div_x, vec2d_div_y]
  have e : (F.x / m) ^ 2 + (F.y / m) ^ 2 = (F.x ^ 2 + F.y ^ 2) / m ^ 2 := by
    field_simp
  rw [e, Real.sqrt_div hpos.le, Real.sqrt_sq hm0.le, div_eq_mul_inv]

/-- C17. Degenerate small-mass limit: as the mass `m` tends to `0` from above,
`radius()` of a body of mass `m` tends to `0`, and for a fixed nonzero
accumulated force the magnitude of the acceleration `F/m` of `update` tends to
infinity; `pow` is the real power. -/
theorem small_mass_limit (s : star ℝ) (hF : s.force ≠ ⟨0, 0⟩) :
    Filter.Tendsto (fun m : ℝ => ({ s with mass := m } : star ℝ).radius (fun x y => x ^ y))
        (nhdsWithin 0 (Set.Ioi 0)) (nhds 0) ∧
      Filter.Tendsto
        (fun m : ℝ => Real.sqrt (({ s with mass := m } : star ℝ).accel.x ^ 2
          + ({ s with mass := m } : star ℝ).accel.y ^ 2))
        (nhdsWithin 0 (Set.Ioi 0)) Filter.atTop :=
  ⟨radius_tendsto_zero, accel_tendsto_atTop s.force hF⟩

/-- Witness of C17 on the body of mass `1` with the force `(1, 0)` accumulated. -/
theorem small_mass_limit_witness :
    ((bodyOfMass (1 : ℝ)).addForce ⟨1, 0⟩).force ≠ ⟨0, 0⟩ ∧
    (Filter.Tendsto
        (fun m : ℝ => ({ (bodyOfMass (1 : ℝ)).addForce ⟨1, 0⟩ with mass := m } : star ℝ).radius
          (fun x y => x ^ y))
        (nhdsWithin 0 (Set.Ioi 0)) (nhds 0) ∧
      Filter.Tendsto
        (fun m : ℝ =>
          Real.sqrt (({ (bodyOfMass (1 : ℝ)).addForce ⟨1, 0⟩ with mass := m } : star ℝ).accel.x ^ 2
            + ({ (bodyOfMass (1 : ℝ)).addForce ⟨1, 0⟩ with mass := m } : star ℝ).accel.y ^ 2))
        (nhdsWithin 0 (Set.Ioi 0)) Filter.atTop) :=
  ⟨by simp [bodyOfMass, star.new, star.addForce, vec2d_eq_iff, vec2d_add_x],
    small_mass_limit ((bodyOfMass (1 : ℝ)).addForce ⟨1, 0⟩)
      (by simp [bodyOfMass, star.new, star.addForce, vec2d_eq_iff, vec2d_add_x])⟩

end LimitTheorems

end GPUGalaxy
